import Mathlib

/-
Verification of the flocker control-plane synchronization protocol
(`flocker/control/_protocol.py`) and its deferred-gathering helper
(`flocker/common/_defer.py`).

The Python source is shallowly embedded: Python structured values become the
inductive type `PyObj`; byte strings become `List Nat` (each entry a byte);
side effects (store reads, AMP pushes, eliot trace scopes, transport
operations) become explicit event traces (`List Event`); exceptions become
`Except`/`Option` results.  External collaborators that the source imports
but whose code is not under `src/` (the pickle module, the configuration
persistence service, the cluster-state service, twisted's deferred
machinery) are modelled; each such definition carries a doc comment saying
what it models and on what authority.
-/

/-- Python structured values, as produced by the external stores and carried
by the two structured-value codecs: `None`, booleans, (arbitrary-precision)
integers, text strings, lists, and class instances with named fields. -/
inductive PyObj where
  | none
  | bool (b : Bool)
  | int (i : Int)
  | str (s : String)
  | list (xs : List PyObj)
  | obj (cls : String) (fields : List (String × PyObj))

/-- Errors raised by the modelled `pickle` deserializer.  These are the
lower-level errors of the serialization library itself: the codec classes in
`_protocol.py` add no wrapper around them. -/
inductive PickleError where
  | badTag (b : Nat)
  | badByte (b : Nat)
  | truncated
  | nonCanonicalVarint
  | badBool (b : Nat)
  | badChar (n : Nat)
  | negativeZero
  | fuelExhausted
  deriving DecidableEq, Repr

/-- Variable-length byte encoding of a natural number (low 7-bit groups, high
bit of a byte flags a continuation), the self-describing length/scalar
encoding used by the modelled serializer. -/
def encVar (n : Nat) : List Nat :=
  if n < 128 then [n] else (128 + n % 128) :: encVar (n / 128)
decreasing_by exact Nat.div_lt_self (by omega) (by omega)

/-- Decode one variable-length natural from the front of a byte string,
returning the value and the remaining bytes.  Rejects non-bytes and
non-minimal encodings, so a successful parse pins the consumed bytes. -/
def decVar : List Nat → Except PickleError (Nat × List Nat)
  | [] => .error .truncated
  | b :: r =>
    if b < 128 then .ok (b, r)
    else if b < 256 then
      match decVar r with
      | .ok (m, r') => if m = 0 then .error .nonCanonicalVarint else .ok (b - 128 + 128 * m, r')
      | .error e => .error e
    else .error (.badByte b)

theorem decVar_encVar (n : Nat) : ∀ rest, decVar (encVar n ++ rest) = .ok (n, rest) := by
  induction n using Nat.strong_induction_on with
  | _ n ih =>
    intro rest
    rw [encVar]
    split
    · simp [decVar, *]
    · rename_i h
      have h1 : ¬ (128 + n % 128 < 128) := by omega
      have h2 : 128 + n % 128 < 256 := by omega
      rw [List.cons_append]
      simp only [decVar, h1, if_false, h2, if_true]
      rw [ih (n / 128) (Nat.div_lt_self (by omega) (by omega)) rest]
      have h3 : ¬ (n / 128 = 0) := fun hh => h (by omega)
      simp only [h3, if_false]
      have h4 : 128 + n % 128 - 128 + 128 * (n / 128) = n := by omega
      rw [h4]

theorem decVar_sound : ∀ (b : List Nat) (n : Nat) (rest : List Nat),
    decVar b = .ok (n, rest) → b = encVar n ++ rest := by
  intro b
  induction b with
  | nil => intro n rest h; simp [decVar] at h
  | cons x r ih =>
    intro n rest h
    simp only [decVar] at h
    split at h
    · rename_i hx
      obtain ⟨h1, h2⟩ := Prod.mk.injEq .. ▸ Except.ok.inj h
      subst h1; subst h2
      rw [encVar]; simp [hx]
    · split at h
      · rename_i hx hx2
        cases hdec : decVar r with
        | error e => rw [hdec] at h; simp at h
        | ok p =>
          obtain ⟨m, r'⟩ := p
          rw [hdec] at h
          by_cases hm : m = 0
          · simp [hm] at h
          · simp only [hm, if_false] at h
            have hr := ih m r' hdec
            obtain ⟨h1, h2⟩ := Prod.mk.injEq .. ▸ Except.ok.inj h
            subst h1; subst h2
            rw [encVar]
            have hn : ¬ (x - 128 + 128 * m < 128) := by omega
            simp only [hn, if_false]
            have hmod : (x - 128 + 128 * m) % 128 = x - 128 := by omega
            have hdiv : (x - 128 + 128 * m) / 128 = m := by omega
            rw [hmod, hdiv, List.cons_append, ← hr]
            have hx' : 128 + (x - 128) = x := by omega
            rw [hx']
      · simp at h

/-- Encode one character as the variable-length encoding of its code point. -/
def encChar (c : Char) : List Nat :=
  encVar c.toNat

/-- Decode one character; rejects code points that are not valid scalar
values, so a decoded character always round-trips. -/
def decChar (b : List Nat) : Except PickleError (Char × List Nat) :=
  match decVar b with
  | .ok (n, r) => if _h : n.isValidChar then .ok (Char.ofNat n, r) else .error (.badChar n)
  | .error e => .error e

theorem charToNat_ofNat (n : Nat) (h : n.isValidChar) : (Char.ofNat n).toNat = n := by
  unfold Char.ofNat
  rw [dif_pos h]
  rfl

theorem decChar_encChar (c : Char) (rest : List Nat) :
    decChar (encChar c ++ rest) = .ok (c, rest) := by
  have hv : c.toNat.isValidChar := c.valid
  simp only [decChar, encChar, decVar_encVar]
  rw [dif_pos hv, Char.ofNat_toNat]

theorem decChar_sound (b : List Nat) (c : Char) (rest : List Nat)
    (h : decChar b = .ok (c, rest)) : b = encChar c ++ rest := by
  simp only [decChar] at h
  cases hdec : decVar b with
  | error e => rw [hdec] at h; simp at h
  | ok p =>
    obtain ⟨n, r⟩ := p
    simp only [hdec] at h
    by_cases hval : n.isValidChar
    · rw [dif_pos hval] at h
      obtain ⟨h1, h2⟩ := Prod.mk.injEq .. ▸ Except.ok.inj h
      have hb := decVar_sound b n r hdec
      rw [hb, ← h2, encChar, ← h1, charToNat_ofNat n hval]
    · rw [dif_neg hval] at h
      simp at h

/-- Encode a character list back-to-back. -/
def encChars : List Char → List Nat
  | [] => []
  | c :: cs => encChar c ++ encChars cs

/-- Decode exactly `count` characters. -/
def decChars : Nat → List Nat → Except PickleError (List Char × List Nat)
  | 0, b => .ok ([], b)
  | k + 1, b =>
    match decChar b with
    | .ok (c, r) =>
      match decChars k r with
      | .ok (cs, r') => .ok (c :: cs, r')
      | .error e => .error e
    | .error e => .error e

theorem decChars_encChars (cs : List Char) : ∀ rest,
    decChars cs.length (encChars cs ++ rest) = .ok (cs, rest) := by
  induction cs with
  | nil => intro rest; simp [decChars, encChars]
  | cons c cs ih =>
    intro rest
    simp only [encChars, List.length_cons, decChars, List.append_assoc, decChar_encChar, ih]

theorem decChars_sound : ∀ (k : Nat) (b : List Nat) (cs : List Char) (rest : List Nat),
    decChars k b = .ok (cs, rest) → cs.length = k ∧ b = encChars cs ++ rest := by
  intro k
  induction k with
  | zero =>
    intro b cs rest h
    simp only [decChars] at h
    obtain ⟨h1, h2⟩ := Prod.mk.injEq .. ▸ Except.ok.inj h
    subst h1; subst h2
    simp [encChars]
  | succ k ih =>
    intro b cs rest h
    simp only [decChars] at h
    cases hdec : decChar b with
    | error e => simp [hdec] at h
    | ok p =>
      obtain ⟨c, r⟩ := p
      simp only [hdec] at h
      cases hdec2 : decChars k r with
      | error e => simp [hdec2] at h
      | ok p2 =>
        obtain ⟨cs', r'⟩ := p2
        simp only [hdec2] at h
        obtain ⟨h1, h2⟩ := Prod.mk.injEq .. ▸ Except.ok.inj h
        subst h1; subst h2
        obtain ⟨hl, hb⟩ := ih r cs' r' hdec2
        have hcb := decChar_sound b c r hdec
        subst hl
        exact ⟨rfl, by rw [hcb, hb, encChars, List.append_assoc]⟩

/-- Encode a text string: length then the characters. -/
def encStr (s : String) : List Nat :=
  encVar s.data.length ++ encChars s.data

/-- Decode a text string. -/
def decStr (b : List Nat) : Except PickleError (String × List Nat) :=
  match decVar b with
  | .ok (len, r) =>
    match decChars len r with
    | .ok (cs, r') => .ok (String.mk cs, r')
    | .error e => .error e
  | .error e => .error e

theorem decStr_encStr (s : String) (rest : List Nat) :
    decStr (encStr s ++ rest) = .ok (s, rest) := by
  obtain ⟨cs⟩ := s
  simp only [decStr, encStr, List.append_assoc, decVar_encVar, decChars_encChars]

theorem decStr_sound (b : List Nat) (s : String) (rest : List Nat)
    (h : decStr b = .ok (s, rest)) : b = encStr s ++ rest := by
  simp only [decStr] at h
  cases hdec : decVar b with
  | error e => simp [hdec] at h
  | ok p =>
    obtain ⟨len, r⟩ := p
    simp only [hdec] at h
    cases hdec2 : decChars len r with
    | error e => simp [hdec2] at h
    | ok p2 =>
      obtain ⟨cs, r'⟩ := p2
      simp only [hdec2] at h
      obtain ⟨h1, h2⟩ := Prod.mk.injEq .. ▸ Except.ok.inj h
      subst h1; subst h2
      obtain ⟨hl, hb⟩ := decChars_sound len r cs r' hdec2
      have hvb := decVar_sound b len r hdec
      rw [hvb, hb, encStr, ← hl, List.append_assoc]

/-- Encode an integer: sign byte then magnitude. -/
def encInt (i : Int) : List Nat :=
  if 0 ≤ i then 0 :: encVar i.toNat else 1 :: encVar (-i).toNat

/-- Decode an integer; a negative zero is rejected so a successful parse
pins the consumed bytes. -/
def decInt : List Nat → Except PickleError (Int × List Nat)
  | [] => .error .truncated
  | s :: r =>
    if s = 0 then
      match decVar r with
      | .ok (n, r') => .ok ((n : Int), r')
      | .error e => .error e
    else if s = 1 then
      match decVar r with
      | .ok (n, r') => if n = 0 then .error .negativeZero else .ok (-(n : Int), r')
      | .error e => .error e
    else .error (.badByte s)

theorem decInt_encInt (i : Int) (rest : List Nat) :
    decInt (encInt i ++ rest) = .ok (i, rest) := by
  rw [encInt]
  split
  · rename_i hpos
    simp [decInt, decVar_encVar, Int.toNat_of_nonneg hpos]
  · rename_i hneg
    have h2 : ¬ ((-i).toNat = 0) := by omega
    have h3 : ((-i).toNat : Int) = -i := by omega
    simp [decInt, decVar_encVar, h2, h3]

theorem decInt_sound (b : List Nat) (i : Int) (rest : List Nat)
    (h : decInt b = .ok (i, rest)) : b = encInt i ++ rest := by
  match b with
  | [] => simp [decInt] at h
  | s :: r =>
    simp only [decInt] at h
    split at h
    · rename_i hs0
      cases hdec : decVar r with
      | error e => simp [hdec] at h
      | ok p =>
        obtain ⟨n, r'⟩ := p
        simp only [hdec] at h
        obtain ⟨h1, h2⟩ := Prod.mk.injEq .. ▸ Except.ok.inj h
        subst h1
        subst hs0
        have hr := decVar_sound r n r' hdec
        rw [encInt, if_pos (by omega : (0:Int) ≤ ((n:Nat) : Int)), hr, ← h2]
        have htn : (((n:Nat) : Int)).toNat = n := by omega
        rw [htn, List.cons_append]
    · split at h
      · rename_i hs0 hs1
        cases hdec : decVar r with
        | error e => simp [hdec] at h
        | ok p =>
          obtain ⟨n, r'⟩ := p
          simp only [hdec] at h
          split at h
          · simp at h
          · rename_i hn0
            obtain ⟨h1, h2⟩ := Prod.mk.injEq .. ▸ Except.ok.inj h
            subst h1
            subst hs1
            have hr := decVar_sound r n r' hdec
            have hni : ¬ ((0:Int) ≤ -((n:Nat) : Int)) := by omega
            rw [encInt, if_neg hni, hr, ← h2]
            have htn : (-(-((n:Nat) : Int))).toNat = n := by omega
            rw [htn, List.cons_append]
      · simp at h

mutual

/-- Serialize one structured value: a tag byte followed by the
self-describing payload.  Together with `loads` below this models
`pickle.dumps`/`pickle.loads` from the Python standard library (imported by
`_protocol.py` as `from pickle import dumps, loads`): an external library,
modelled as a total, self-describing object-graph serializer whose decode
inverts encode — the contract the source relies on. -/
def dumpsObj : PyObj → List Nat
  | .none => [0]
  | .bool b => [1, if b then 1 else 0]
  | .int i => 2 :: encInt i
  | .str s => 3 :: encStr s
  | .list xs => 4 :: (encVar xs.length ++ dumpsList xs)
  | .obj cls fs => 5 :: (encStr cls ++ (encVar fs.length ++ dumpsFields fs))

/-- Serialize the elements of a list value back-to-back. -/
def dumpsList : List PyObj → List Nat
  | [] => []
  | x :: xs => dumpsObj x ++ dumpsList xs

/-- Serialize the named fields of an instance back-to-back. -/
def dumpsFields : List (String × PyObj) → List Nat
  | [] => []
  | kv :: fs => encStr kv.1 ++ (dumpsObj kv.2 ++ dumpsFields fs)

end

/-- Decode exactly `count` values using the supplied element decoder. -/
def decodeN (dec : List Nat → Except PickleError (PyObj × List Nat)) :
    Nat → List Nat → Except PickleError (List PyObj × List Nat)
  | 0, b => .ok ([], b)
  | k + 1, b =>
    match dec b with
    | .ok (v, r) =>
      match decodeN dec k r with
      | .ok (vs, r') => .ok (v :: vs, r')
      | .error e => .error e
    | .error e => .error e

/-- Decode exactly `count` named fields using the supplied value decoder. -/
def decodeFieldsN (dec : List Nat → Except PickleError (PyObj × List Nat)) :
    Nat → List Nat → Except PickleError (List (String × PyObj) × List Nat)
  | 0, b => .ok ([], b)
  | k + 1, b =>
    match decStr b with
    | .ok (key, r) =>
      match dec r with
      | .ok (v, r') =>
        match decodeFieldsN dec k r' with
        | .ok (fs, r'') => .ok ((key, v) :: fs, r'')
        | .error e => .error e
      | .error e => .error e
    | .error e => .error e

/-- Decode one structured value from the front of a byte string.  The fuel
argument only bounds nesting depth; `loads` supplies more fuel than any
input can consume, so the `fuelExhausted` branch is unreachable there. -/
def loadsAux : Nat → List Nat → Except PickleError (PyObj × List Nat)
  | 0, _ => .error .fuelExhausted
  | fuel + 1, b =>
    match b with
    | [] => .error .truncated
    | t :: r =>
      if t = 0 then .ok (.none, r)
      else if t = 1 then
        match r with
        | [] => .error .truncated
        | x :: r' =>
          if x = 0 then .ok (.bool false, r')
          else if x = 1 then .ok (.bool true, r')
          else .error (.badBool x)
      else if t = 2 then
        match decInt r with
        | .ok (i, r') => .ok (.int i, r')
        | .error e => .error e
      else if t = 3 then
        match decStr r with
        | .ok (s, r') => .ok (.str s, r')
        | .error e => .error e
      else if t = 4 then
        match decVar r with
        | .ok (count, r1) =>
          match decodeN (loadsAux fuel) count r1 with
          | .ok (xs, r2) => .ok (.list xs, r2)
          | .error e => .error e
        | .error e => .error e
      else if t = 5 then
        match decStr r with
        | .ok (cls, r1) =>
          match decVar r1 with
          | .ok (count, r2) =>
            match decodeFieldsN (loadsAux fuel) count r2 with
            | .ok (fs, r3) => .ok (.obj cls fs, r3)
            | .error e => .error e
          | .error e => .error e
        | .error e => .error e
      else .error (.badTag t)

/-- Model of `pickle.dumps`: serialize a structured value to bytes. -/
def dumps (node_state : PyObj) : List Nat :=
  dumpsObj node_state

/-- Model of `pickle.loads`: read one structured value from the front of the
byte string.  Like `pickle.loads`, which stops at the record's STOP opcode,
bytes after the decoded record are ignored. -/
def loads (in_bytes : List Nat) : Except PickleError PyObj :=
  match loadsAux (in_bytes.length + 1) in_bytes with
  | .ok (v, _) => .ok v
  | .error e => .error e

theorem encVar_length_pos (n : Nat) : 1 ≤ (encVar n).length := by
  rw [encVar]
  split <;> simp

theorem dumpsList_mem_length_le (x : PyObj) : ∀ (xs : List PyObj), x ∈ xs →
    (dumpsObj x).length ≤ (dumpsList xs).length := by
  intro xs
  induction xs with
  | nil => intro hx; simp at hx
  | cons y ys ih =>
    intro hx
    rw [dumpsList]
    rcases List.mem_cons.mp hx with h | h
    · subst h; simp
    · have := ih h
      simp only [List.length_append]
      omega

theorem dumpsFields_mem_length_le (kv : String × PyObj) : ∀ (fs : List (String × PyObj)),
    kv ∈ fs → (dumpsObj kv.2).length ≤ (dumpsFields fs).length := by
  intro fs
  induction fs with
  | nil => intro hkv; simp at hkv
  | cons kv' fs' ih =>
    intro hkv
    rw [dumpsFields]
    rcases List.mem_cons.mp hkv with h | h
    · subst h; simp only [List.length_append]; omega
    · have := ih h
      simp only [List.length_append]
      omega

theorem decodeN_dumpsList (dec : List Nat → Except PickleError (PyObj × List Nat)) :
    ∀ (xs : List PyObj) (rest : List Nat),
    (∀ x ∈ xs, ∀ r, dec (dumpsObj x ++ r) = .ok (x, r)) →
    decodeN dec xs.length (dumpsList xs ++ rest) = .ok (xs, rest) := by
  intro xs
  induction xs with
  | nil => intro rest hdec; simp [decodeN, dumpsList]
  | cons x xs ih =>
    intro rest hdec
    rw [dumpsList, List.length_cons]
    simp only [decodeN, List.append_assoc]
    simp only [hdec x (List.mem_cons_self x xs) (dumpsList xs ++ rest),
      ih rest (fun y hy r => hdec y (List.mem_cons_of_mem x hy) r)]

theorem decodeFieldsN_dumpsFields (dec : List Nat → Except PickleError (PyObj × List Nat)) :
    ∀ (fs : List (String × PyObj)) (rest : List Nat),
    (∀ kv ∈ fs, ∀ r, dec (dumpsObj kv.2 ++ r) = .ok (kv.2, r)) →
    decodeFieldsN dec fs.length (dumpsFields fs ++ rest) = .ok (fs, rest) := by
  intro fs
  induction fs with
  | nil => intro rest hdec; simp [decodeFieldsN, dumpsFields]
  | cons kv fs ih =>
    intro rest hdec
    rw [dumpsFields, List.length_cons]
    simp only [decodeFieldsN, List.append_assoc]
    simp only [decStr_encStr kv.1 (dumpsObj kv.2 ++ (dumpsFields fs ++ rest)),
      hdec kv (List.mem_cons_self kv fs) (dumpsFields fs ++ rest),
      ih rest (fun kv' hkv' r => hdec kv' (List.mem_cons_of_mem kv hkv') r)]

theorem loadsAux_dumpsObj : ∀ (fuel : Nat) (v : PyObj) (rest : List Nat),
    (dumpsObj v).length < fuel → loadsAux fuel (dumpsObj v ++ rest) = .ok (v, rest) := by
  intro fuel
  induction fuel with
  | zero => intro v rest h; exact absurd h (Nat.not_lt_zero _)
  | succ f ih =>
    intro v rest h
    cases v with
    | none => simp [dumpsObj, loadsAux]
    | bool b => cases b <;> simp [dumpsObj, loadsAux]
    | int i => simp [dumpsObj, loadsAux, decInt_encInt]
    | str s => simp [dumpsObj, loadsAux, decStr_encStr]
    | list xs =>
      have hlen : ∀ x ∈ xs, (dumpsObj x).length < f := by
        intro x hx
        have h1 := dumpsList_mem_length_le x xs hx
        have h2 := encVar_length_pos xs.length
        rw [dumpsObj] at h
        simp only [List.length_cons, List.length_append] at h
        omega
      have hN := decodeN_dumpsList (loadsAux f) xs rest (fun x hx r => ih x r (hlen x hx))
      rw [dumpsObj]
      simp only [List.cons_append, List.append_assoc, loadsAux, decVar_encVar]
      simp [hN]
    | obj cls fs =>
      have hlen : ∀ kv ∈ fs, (dumpsObj kv.2).length < f := by
        intro kv hkv
        have h1 := dumpsFields_mem_length_le kv fs hkv
        have h2 := encVar_length_pos fs.length
        rw [dumpsObj] at h
        simp only [List.length_cons, List.length_append] at h
        omega
      have hN := decodeFieldsN_dumpsFields (loadsAux f) fs rest (fun kv hkv r => ih kv.2 r (hlen kv hkv))
      rw [dumpsObj]
      simp only [List.cons_append, List.append_assoc, loadsAux, decStr_encStr, decVar_encVar]
      simp [hN]

theorem loads_dumps (v : PyObj) : loads (dumps v) = .ok v := by
  have h := loadsAux_dumpsObj ((dumpsObj v).length + 1) v [] (by omega)
  rw [List.append_nil] at h
  simp only [loads, dumps, h]

theorem decodeN_sound (dec : List Nat → Except PickleError (PyObj × List Nat))
    (hsound : ∀ b v r, dec b = .ok (v, r) → b = dumpsObj v ++ r) :
    ∀ (k : Nat) (b : List Nat) (xs : List PyObj) (rest : List Nat),
    decodeN dec k b = .ok (xs, rest) → xs.length = k ∧ b = dumpsList xs ++ rest := by
  intro k
  induction k with
  | zero =>
    intro b xs rest h
    simp only [decodeN] at h
    obtain ⟨h1, h2⟩ := Prod.mk.injEq .. ▸ Except.ok.inj h
    subst h1; subst h2
    simp [dumpsList]
  | succ k ih =>
    intro b xs rest h
    simp only [decodeN] at h
    cases hdec : dec b with
    | error e => simp [hdec] at h
    | ok p =>
      obtain ⟨v, r⟩ := p
      simp only [hdec] at h
      cases hdec2 : decodeN dec k r with
      | error e => simp [hdec2] at h
      | ok p2 =>
        obtain ⟨vs, r'⟩ := p2
        simp only [hdec2] at h
        obtain ⟨h1, h2⟩ := Prod.mk.injEq .. ▸ Except.ok.inj h
        subst h1; subst h2
        obtain ⟨hl, hb⟩ := ih r vs r' hdec2
        have hvb := hsound b v r hdec
        subst hl
        refine ⟨rfl, ?_⟩
        rw [hvb, hb, dumpsList, List.append_assoc]

theorem decodeFieldsN_sound (dec : List Nat → Except PickleError (PyObj × List Nat))
    (hsound : ∀ b v r, dec b = .ok (v, r) → b = dumpsObj v ++ r) :
    ∀ (k : Nat) (b : List Nat) (fs : List (String × PyObj)) (rest : List Nat),
    decodeFieldsN dec k b = .ok (fs, rest) → fs.length = k ∧ b = dumpsFields fs ++ rest := by
  intro k
  induction k with
  | zero =>
    intro b fs rest h
    simp only [decodeFieldsN] at h
    obtain ⟨h1, h2⟩ := Prod.mk.injEq .. ▸ Except.ok.inj h
    subst h1; subst h2
    simp [dumpsFields]
  | succ k ih =>
    intro b fs rest h
    simp only [decodeFieldsN] at h
    cases hstr : decStr b with
    | error e => simp [hstr] at h
    | ok p0 =>
      obtain ⟨key, r0⟩ := p0
      simp only [hstr] at h
      cases hdec : dec r0 with
      | error e => simp [hdec] at h
      | ok p =>
        obtain ⟨v, r⟩ := p
        simp only [hdec] at h
        cases hdec2 : decodeFieldsN dec k r with
        | error e => simp [hdec2] at h
        | ok p2 =>
          obtain ⟨fs', r'⟩ := p2
          simp only [hdec2] at h
          obtain ⟨h1, h2⟩ := Prod.mk.injEq .. ▸ Except.ok.inj h
          subst h1; subst h2
          obtain ⟨hl, hb⟩ := ih r fs' r' hdec2
          have hvb := hsound r0 v r hdec
          have hsb := decStr_sound b key r0 hstr
          subst hl
          refine ⟨rfl, ?_⟩
          rw [hsb, hvb, hb, dumpsFields]
          simp [List.append_assoc]

theorem loadsAux_sound : ∀ (fuel : Nat) (b : List Nat) (v : PyObj) (rest : List Nat),
    loadsAux fuel b = .ok (v, rest) → b = dumpsObj v ++ rest := by
  intro fuel
  induction fuel with
  | zero => intro b v rest h; simp [loadsAux] at h
  | succ f ih =>
    intro b v rest h
    match b with
    | [] => simp [loadsAux] at h
    | t :: r =>
      simp only [loadsAux] at h
      split at h
      · rename_i ht
        obtain ⟨h1, h2⟩ := Prod.mk.injEq .. ▸ Except.ok.inj h
        subst h1; subst h2; subst ht
        simp [dumpsObj]
      · split at h
        · rename_i ht0 ht
          subst ht
          split at h
          · simp at h
          · rename_i x r'
            split at h
            · rename_i hx
              obtain ⟨h1, h2⟩ := Prod.mk.injEq .. ▸ Except.ok.inj h
              subst h1; subst h2; subst hx
              simp [dumpsObj]
            · split at h
              · rename_i hx0 hx
                obtain ⟨h1, h2⟩ := Prod.mk.injEq .. ▸ Except.ok.inj h
                subst h1; subst h2; subst hx
                simp [dumpsObj]
              · simp at h
        · split at h
          · rename_i ht0 ht1 ht
            cases hdec : decInt r with
            | error e => simp [hdec] at h
            | ok p =>
              obtain ⟨i, r'⟩ := p
              simp only [hdec] at h
              obtain ⟨h1, h2⟩ := Prod.mk.injEq .. ▸ Except.ok.inj h
              subst h1; subst h2; subst ht
              have hr := decInt_sound r i r' hdec
              rw [dumpsObj, hr, List.cons_append]
          · split at h
            · rename_i ht0 ht1 ht2 ht
              cases hdec : decStr r with
              | error e => simp [hdec] at h
              | ok p =>
                obtain ⟨s, r'⟩ := p
                simp only [hdec] at h
                obtain ⟨h1, h2⟩ := Prod.mk.injEq .. ▸ Except.ok.inj h
                subst h1; subst h2; subst ht
                have hr := decStr_sound r s r' hdec
                rw [dumpsObj, hr, List.cons_append]
            · split at h
              · rename_i ht0 ht1 ht2 ht3 ht
                cases hvar : decVar r with
                | error e => simp [hvar] at h
                | ok p =>
                  obtain ⟨count, r1⟩ := p
                  simp only [hvar] at h
                  cases hN : decodeN (loadsAux f) count r1 with
                  | error e => simp [hN] at h
                  | ok p2 =>
                    obtain ⟨xs, r2⟩ := p2
                    simp only [hN] at h
                    obtain ⟨h1, h2⟩ := Prod.mk.injEq .. ▸ Except.ok.inj h
                    subst h1; subst h2; subst ht
                    obtain ⟨hl, hb⟩ := decodeN_sound (loadsAux f)
                      (fun b' v' r' hh => ih b' v' r' hh) count r1 xs r2 hN
                    have hvb := decVar_sound r count r1 hvar
                    rw [dumpsObj, hvb, hb, ← hl, List.cons_append, List.append_assoc]
              · split at h
                · rename_i ht0 ht1 ht2 ht3 ht4 ht
                  cases hstr : decStr r with
                  | error e => simp [hstr] at h
                  | ok p0 =>
                    obtain ⟨cls, r1⟩ := p0
                    simp only [hstr] at h
                    cases hvar : decVar r1 with
                    | error e => simp [hvar] at h
                    | ok p1 =>
                      obtain ⟨count, r2⟩ := p1
                      simp only [hvar] at h
                      cases hN : decodeFieldsN (loadsAux f) count r2 with
                      | error e => simp [hN] at h
                      | ok p2 =>
                        obtain ⟨fs, r3⟩ := p2
                        simp only [hN] at h
                        obtain ⟨h1, h2⟩ := Prod.mk.injEq .. ▸ Except.ok.inj h
                        subst h1; subst h2; subst ht
                        obtain ⟨hl, hb⟩ := decodeFieldsN_sound (loadsAux f)
                          (fun b' v' r' hh => ih b' v' r' hh) count r2 fs r3 hN
                        have hsb := decStr_sound r cls r1 hstr
                        have hvb := decVar_sound r1 count r2 hvar
                        rw [dumpsObj, hsb, hvb, hb, ← hl, List.cons_append]
                        simp [List.append_assoc]
                · simp at h

theorem loads_sound (b : List Nat) (v : PyObj) (h : loads b = .ok v) :
    ∃ rest, b = dumps v ++ rest := by
  rw [loads] at h
  cases haux : loadsAux (b.length + 1) b with
  | error e => rw [haux] at h; simp at h
  | ok p =>
    obtain ⟨v', rest⟩ := p
    rw [haux] at h
    simp only at h
    obtain hv := Except.ok.inj h
    subst hv
    exact ⟨rest, loadsAux_sound (b.length + 1) b v' rest haux⟩

/-- Modelled from the spec: `serialize_deployment` lives in
`flocker/control/_persistence.py`, which is not under `src/`; the spec
(sections 4.1 and 6) specifies only the contract `encode(value) -> bytes`
for a self-describing encoding whose decode inverts it.  We model it with
the structured-value serializer. -/
def serialize_deployment (deployment : PyObj) : List Nat :=
  dumps deployment

/-- Modelled from the spec: `deserialize_deployment` from
`flocker/control/_persistence.py` (not under `src/`); the spec requires
`decode(encode(v)) == v` and failure with the deserializer's error on
malformed input. -/
def deserialize_deployment (in_bytes : List Nat) : Except PickleError PyObj :=
  loads in_bytes

/-- `NodeStateArgument.toString` (`_protocol.py` line 57): `dumps(node_state)`. -/
def NodeStateArgument.toString (node_state : PyObj) : List Nat :=
  dumps node_state

/-- `NodeStateArgument.fromString` (`_protocol.py` line 54): `loads(in_bytes)`,
returned as-is — the lower-level pickle error propagates unchanged. -/
def NodeStateArgument.fromString (in_bytes : List Nat) : Except PickleError PyObj :=
  loads in_bytes

/-- `DeploymentArgument.toString` (`_protocol.py` line 68):
`serialize_deployment(deployment)`. -/
def DeploymentArgument.toString (deployment : PyObj) : List Nat :=
  serialize_deployment deployment

/-- `DeploymentArgument.fromString` (`_protocol.py` line 65):
`deserialize_deployment(in_bytes)`, returned as-is. -/
def DeploymentArgument.fromString (in_bytes : List Nat) : Except PickleError PyObj :=
  deserialize_deployment in_bytes

/-- Python exceptions that the embedded control-service code can raise. -/
inductive PyErr where
  | keyError
  | typeError
  deriving DecidableEq, Repr

/-- Identity of one AMP session (the `ControlAMP` transport object). -/
abbrev Session := Nat

/-- Observable effects of the control-service code, in program order:
reads of the two external stores, `callRemote(ClusterStatusCommand, ...)`
pushes, the node-state merge, transport shutdown operations, eliot trace
scopes, and the agent callback. -/
inductive Event where
  | getConfig (configuration : PyObj)
  | asDeployment (state : PyObj)
  | push (recipient : Session) (configuration state : PyObj)
  | updateNodeState (node_state : PyObj)
  | stopEndpoint
  | loseConnection (recipient : Session)
  | beginTask (taskId : String)
  | finishTask (taskId : String)
  | agentClusterUpdated (configuration state : PyObj)

/-- Modelled from the spec: the configuration store
(`ConfigurationPersistenceService`, not under `src/`) exposes
`get() -> ConfigurationValue` returning the current configuration, and a
change-notification subscription. -/
structure ConfigurationPersistenceService where
  current : PyObj

/-- Modelled from the spec: `get()` returns the configuration value. -/
def ConfigurationPersistenceService.get (svc : ConfigurationPersistenceService) : PyObj :=
  svc.current

/-- Modelled from the spec: the cluster-state aggregation store
(`ClusterStateService`, not under `src/`) records the node states received
so far; `update_node_state` merges one more, `as_deployment` materializes
the aggregate as a configuration-shaped value. -/
structure ClusterStateService where
  node_states : List PyObj

/-- Modelled from the spec: merge one node-state value into the aggregate. -/
def ClusterStateService.update_node_state (node_state : PyObj)
    (svc : ClusterStateService) : ClusterStateService :=
  ⟨svc.node_states ++ [node_state]⟩

/-- Modelled from the spec: materialize the aggregate of all received node
states as a single configuration-shaped value. -/
def ClusterStateService.as_deployment (svc : ClusterStateService) : PyObj :=
  PyObj.list svc.node_states

/-- Python `set.add` on the live connection set, modelled on a duplicate-free
list: adding a member already present leaves the set unchanged. -/
def setAdd (s : List Session) (x : Session) : List Session :=
  if x ∈ s then s else s ++ [x]

/-- State of `ControlAMPService`: the live connection set (a Python `set`,
modelled as a duplicate-free list), and the two store references taken at
construction. -/
structure ControlAMPService where
  connections : List Session
  cluster_state : ClusterStateService
  configuration_service : ConfigurationPersistenceService

/-- Argument expression a caller passes to `_send_state_to_connections`:
`live` stands for the expression `self.connections` — the live set object
itself, by reference, with no copy taken — while `fresh l` stands for a
newly constructed list literal. -/
inductive RecipientsArg where
  | live
  | fresh (l : List Session)
  deriving DecidableEq

/-- Resolve the argument expression against the current live set, as Python
does when the callee iterates the object it received. -/
def RecipientsArg.resolve : RecipientsArg → List Session → List Session
  | .live, connections => connections
  | .fresh l, _ => l

/-- Whether the collection handed to the broadcast loop is a snapshot copy
(a freshly built list) rather than the live set object itself. -/
def RecipientsArg.isSnapshotCopy : RecipientsArg → Bool
  | .live => false
  | .fresh _ => true

/-- `ControlAMPService._send_state_to_connections` (lines 224-244): read the
configuration once via `get()`, compute the aggregated state once via
`as_deployment()`, then issue one ClusterStatus push per connection in the
given collection, each carrying that same pair. -/
def ControlAMPService.send_state_to_connections (svc : ControlAMPService)
    (connections : List Session) : List Event :=
  let configuration := svc.configuration_service.get
  let state := svc.cluster_state.as_deployment
  Event.getConfig configuration :: Event.asDeployment state ::
    connections.map (fun connection => Event.push connection configuration state)

/-- Argument passed to `_send_state_to_connections` by the change callback
registered in `__init__` (line 214): the expression `self.connections`. -/
def configuration_changed_recipients : RecipientsArg :=
  .live

/-- The callback registered with `configuration_service.register` (lines
213-214): broadcast to the live connection set. -/
def ControlAMPService.configuration_changed (svc : ControlAMPService) : List Event :=
  svc.send_state_to_connections (configuration_changed_recipients.resolve svc.connections)

/-- Argument passed to `_send_state_to_connections` by `connected` (line
253): the fresh single-element list literal `[connection]`. -/
def connected_recipients (connection : Session) : RecipientsArg :=
  .fresh [connection]

/-- `ControlAMPService.connected` (lines 246-253): add the new connection to
the live set, then send the current snapshot to that one connection. -/
def ControlAMPService.connected (svc : ControlAMPService) (connection : Session) :
    ControlAMPService × List Event :=
  let svc' := { svc with connections := setAdd svc.connections connection }
  (svc', svc'.send_state_to_connections
    ((connected_recipients connection).resolve svc'.connections))

/-- `ControlAMPService.disconnected` (lines 255-261):
`self.connections.remove(connection)` — Python `set.remove`, which raises
`KeyError` when the member is absent and in that case leaves the set
unchanged. -/
def ControlAMPService.disconnected (svc : ControlAMPService) (connection : Session) :
    ControlAMPService × Option PyErr :=
  if connection ∈ svc.connections then
    ({ svc with connections := svc.connections.erase connection }, Option.none)
  else
    (svc, some PyErr.keyError)

/-- Argument passed to `_send_state_to_connections` by `node_changed` (line
271): the expression `self.connections`. -/
def node_changed_recipients : RecipientsArg :=
  .live

/-- `ControlAMPService.node_changed` (lines 263-271): merge the received
node state into the cluster-state store, then broadcast to the live set. -/
def ControlAMPService.node_changed (svc : ControlAMPService) (node_state : PyObj) :
    ControlAMPService × List Event :=
  let svc' := { svc with cluster_state := svc.cluster_state.update_node_state node_state }
  (svc', Event.updateNodeState node_state ::
    svc'.send_state_to_connections (node_changed_recipients.resolve svc'.connections))

/-- `ControlAMPService.stopService` (lines 219-222): stop the listening
endpoint, then call `transport.loseConnection()` on every live connection.
`loseConnection` is asynchronous in twisted: the matching `connectionLost`
(hence `disconnected` and the set removal) runs later, so the loop itself
does not mutate the set. -/
def ControlAMPService.stopService (svc : ControlAMPService) : List Event :=
  Event.stopEndpoint :: svc.connections.map Event.loseConnection

/-- Process a batch of `connectionLost` notifications (each invoking
`ControlAMPService.disconnected`), collecting any exceptions raised. -/
def processDisconnects (svc : ControlAMPService) :
    List Session → ControlAMPService × List PyErr
  | [] => (svc, [])
  | c :: cs =>
    let (svc', err) := svc.disconnected c
    let (svc'', errs) := processDisconnects svc' cs
    (svc'', err.toList ++ errs)

/-- Keyword-argument box of an incoming AMP command: named argument values,
as the AMP layer passes them to a responder. -/
abbrev Kwargs := List (String × PyObj)

/-- Look up a keyword argument by name (Python keyword binding: first
match). -/
def kwLookup (args : Kwargs) (k : String) : Option PyObj :=
  (args.find? (fun kv => kv.1 == k)).map (fun kv => kv.2)

/-- The keyword arguments left over after one named parameter is bound —
what Python collects into `**kwargs` for a signature naming that
parameter. -/
def kwErase (args : Kwargs) (k : String) : Kwargs :=
  args.filter (fun kv => kv.1 != k)

/-- `with_eliot_context` (`_protocol.py` lines 106-122): the decorator
produces `responder(self, eliot_context, **kwargs)`, which binds and strips
the `eliot_context` argument, resumes the serialized eliot task as a scope
(`with Action.continue_task(self.logger, eliot_context):`), runs the
wrapped function on the remaining keyword arguments inside that scope, and
closes the scope on every exit — the `with` statement runs its exit handler
whether the body returns or raises, re-raising afterwards.  The wrapped
function is a parameter returning its own emitted events and its result or
raised exception. -/
def with_eliot_context {α : Type} (function : Kwargs → List Event × Except PyErr α)
    (args : Kwargs) : List Event × Except PyErr α :=
  match kwLookup args "eliot_context" with
  | some (PyObj.str eliot_context) =>
    let body := function (kwErase args "eliot_context")
    (Event.beginTask eliot_context :: body.1 ++ [Event.finishTask eliot_context], body.2)
  | _ => ([], .error .typeError)

/-- Body of `ControlServiceLocator.node_changed` (lines 145-149), the
NodeState responder under the decorator: forward the received node state to
`control_amp_service.node_changed` and answer the empty response box. -/
def ControlServiceLocator.node_changed_body (svc : ControlAMPService) (kwargs : Kwargs) :
    List Event × Except PyErr (Kwargs × ControlAMPService) :=
  match kwLookup kwargs "node_state" with
  | some node_state =>
    let r := svc.node_changed node_state
    (r.2, .ok ([], r.1))
  | Option.none => ([], .error .typeError)

/-- `ControlServiceLocator.node_changed` as dispatched by AMP: the decorator
applied to the body. -/
def ControlServiceLocator.node_changed (svc : ControlAMPService) (args : Kwargs) :
    List Event × Except PyErr (Kwargs × ControlAMPService) :=
  with_eliot_context (ControlServiceLocator.node_changed_body svc) args

/-- Body of `_AgentLocator.cluster_updated` (lines 327-331), the
ClusterStatus responder under the decorator: invoke
`agent.cluster_updated(configuration, state)` and answer the empty response
box. -/
def AgentLocator.cluster_updated_body (kwargs : Kwargs) :
    List Event × Except PyErr Kwargs :=
  match kwLookup kwargs "configuration", kwLookup kwargs "state" with
  | some configuration, some state =>
    ([Event.agentClusterUpdated configuration state], .ok [])
  | _, _ => ([], .error .typeError)

/-- `_AgentLocator.cluster_updated` as dispatched by AMP: the decorator
applied to the body. -/
def AgentLocator.cluster_updated (args : Kwargs) :
    List Event × Except PyErr Kwargs :=
  with_eliot_context AgentLocator.cluster_updated_body args

/-- Failures carried by deferreds: either a plain failure (identified by a
tag) or twisted's `FirstError`, which wraps the sub-failure together with
the index of the deferred that failed. -/
inductive PyFailure where
  | failure (tag : String)
  | firstError (sub : PyFailure) (index : Nat)
  deriving DecidableEq, Repr

/-- Model of a fired `twisted.internet.defer.Deferred`: the (virtual) time
at which it fires and the result its callback chain produces — a value or a
failure.  The single-threaded reactor fires deferreds one at a time, so
distinct deferreds fire at distinct times. -/
structure SimDeferred (α : Type) where
  fireTime : Nat
  result : Except PyFailure α

/-- First errback to arrive among the given deferreds, scanning from index
`i`: the failing entry with the least fire time (ties broken towards the
lower index), as `(fireTime, index, failure)`. -/
def findFirstFailure {α : Type} : Nat → List (SimDeferred α) →
    Option (Nat × Nat × PyFailure)
  | _, [] => Option.none
  | i, d :: ds =>
    match d.result, findFirstFailure (i + 1) ds with
    | .error e, Option.none => some (d.fireTime, i, e)
    | .error e, some (t', i', e') =>
      if d.fireTime ≤ t' then some (d.fireTime, i, e) else some (t', i', e')
    | .ok _, rest => rest

/-- Time by which every one of the deferreds has fired. -/
def maxFireTime {α : Type} (ds : List (SimDeferred α)) : Nat :=
  ds.foldr (fun d acc => max d.fireTime acc) 0

/-- Successful results, in the order the deferreds were supplied. -/
def okValues {α : Type} (ds : List (SimDeferred α)) : List α :=
  ds.filterMap (fun d => d.result.toOption)

/-- Model of `twisted.internet.defer.gatherResults` (imported by
`_defer.py`): a `DeferredList` with `fireOnOneErrback` — if any input
fails, it errbacks as soon as the first failure arrives, with a
`FirstError` wrapping that failure and its index (the source docstring:
"will errback with a `FirstError` failure as soon as one of the supplied
deferreds fails"); otherwise it calls back with the list of results once
all inputs have fired. -/
def gatherResults {α : Type} (ds : List (SimDeferred α)) : SimDeferred (List α) :=
  match findFirstFailure 0 ds with
  | some (t, i, e) => ⟨t, .error (.firstError e i)⟩
  | Option.none => ⟨maxFireTime ds, .ok (okValues ds)⟩

/-- `GatherDeferredsAPI._log_and_return_failure` (`_defer.py` lines 27-35):
log the failure when `log_errors` is set.  Despite its docstring ("Log and
return the supplied failure"), the method body only logs and implicitly
returns `None`; the first component is the log entries emitted, the second
the errback's return value. -/
def GatherDeferredsAPI.log_and_return_failure (log_errors : Bool) (failure : PyFailure) :
    List PyFailure × Except PyFailure PyObj :=
  (if log_errors then [failure] else [], .ok PyObj.none)

/-- `Deferred.addErrback`: when the deferred fires with a failure the
errback runs on it; returning a non-failure converts the chain to success.
Returns the reshaped deferred and the log entries the errback emitted. -/
def SimDeferred.addErrback (d : SimDeferred PyObj)
    (f : PyFailure → List PyFailure × Except PyFailure PyObj) :
    SimDeferred PyObj × List PyFailure :=
  match d.result with
  | .error e =>
    let r := f e
    (⟨d.fireTime, r.2⟩, r.1)
  | .ok v => (⟨d.fireTime, .ok v⟩, [])

/-- `gathering.addCallback(lambda ignored: first_failure)`: a callback that
returns a deferred chains the outer deferred onto it — the final result is
the inner deferred's result, available once both have fired.  On the
errback path the callback is skipped. -/
def SimDeferred.addCallbackChainDeferred {α : Type} (g : SimDeferred (List α))
    (d : SimDeferred (List α)) : SimDeferred (List α) :=
  match g.result with
  | .ok _ => ⟨max g.fireTime d.fireTime, d.result⟩
  | .error e => ⟨g.fireTime, .error e⟩

/-- `GatherDeferredsAPI.gather_deferreds` (`_defer.py` lines 37-66),
line by line: gather once to capture the results or the first failure;
attach the logging errback to every supplied deferred (each failure is
thereby logged exactly once, and converted to a success so the second
gather waits for all of them); gather again; chain the result of the first
gather onto the second.  Returns the resulting deferred together with the
concatenated log output of the attached errbacks. -/
def GatherDeferredsAPI.gather_deferreds (log_errors : Bool)
    (deferreds : List (SimDeferred PyObj)) :
    SimDeferred (List PyObj) × List PyFailure :=
  let first_failure := gatherResults deferreds
  let stepped := deferreds.map
    (fun d => d.addErrback (GatherDeferredsAPI.log_and_return_failure log_errors))
  let logs := (stepped.map Prod.snd).flatten
  let gathering := gatherResults (stepped.map Prod.fst)
  (gathering.addCallbackChainDeferred first_failure, logs)

/-- `gather_deferreds = GatherDeferredsAPI().gather_deferreds` (`_defer.py`
line 69): the module-level helper, with error logging enabled. -/
def gather_deferreds (deferreds : List (SimDeferred PyObj)) :
    SimDeferred (List PyObj) × List PyFailure :=
  GatherDeferredsAPI.gather_deferreds true deferreds

/-- Failure carried by a deferred, when there is one. -/
def errOf {α : Type} (d : SimDeferred α) : Option PyFailure :=
  match d.result with
  | .error e => some e
  | .ok _ => Option.none

theorem addErrback_fst_fireTime (b : Bool) (d : SimDeferred PyObj) :
    ((d.addErrback (GatherDeferredsAPI.log_and_return_failure b)).1).fireTime = d.fireTime := by
  cases hr : d.result <;>
    simp [SimDeferred.addErrback, GatherDeferredsAPI.log_and_return_failure, hr]

theorem addErrback_fst_ok (b : Bool) (d : SimDeferred PyObj) :
    ∃ v, ((d.addErrback (GatherDeferredsAPI.log_and_return_failure b)).1).result = .ok v := by
  cases hr : d.result <;>
    simp [SimDeferred.addErrback, GatherDeferredsAPI.log_and_return_failure, hr]

theorem maxFireTime_map_of_fireTime_eq {α β : Type} (f : SimDeferred α → SimDeferred β)
    (hf : ∀ d, (f d).fireTime = d.fireTime) :
    ∀ ds : List (SimDeferred α), maxFireTime (ds.map f) = maxFireTime ds := by
  intro ds
  induction ds with
  | nil => rfl
  | cons d ds ih => simp [maxFireTime, List.foldr] at ih ⊢; rw [hf, ih]

theorem findFirstFailure_none {α : Type} :
    ∀ (ds : List (SimDeferred α)), (∀ d ∈ ds, ∃ v, d.result = .ok v) →
    ∀ i, findFirstFailure i ds = Option.none := by
  intro ds
  induction ds with
  | nil => intro _ i; rfl
  | cons d ds ih =>
    intro h i
    obtain ⟨v, hv⟩ := h d (List.mem_cons_self d ds)
    have ht := ih (fun d' hd' => h d' (List.mem_cons_of_mem d hd')) (i + 1)
    simp [findFirstFailure, hv, ht]

theorem findFirstFailure_some_mem {α : Type} :
    ∀ (ds : List (SimDeferred α)) (i t idx : Nat) (e : PyFailure),
    findFirstFailure i ds = some (t, idx, e) →
    ∃ k d, ds.get? k = some d ∧ d.fireTime = t ∧ d.result = .error e ∧ idx = i + k := by
  intro ds
  induction ds with
  | nil => intro i t idx e h; simp [findFirstFailure] at h
  | cons d ds ih =>
    intro i t idx e h
    simp only [findFirstFailure] at h
    cases hr : d.result with
    | ok v =>
      simp only [hr] at h
      obtain ⟨k, d', hk, ht, he, hidx⟩ := ih (i + 1) t idx e h
      exact ⟨k + 1, d', by simpa using hk, ht, he, by omega⟩
    | error e0 =>
      simp only [hr] at h
      cases hrec : findFirstFailure (i + 1) ds with
      | none =>
        simp only [hrec, Option.some.injEq, Prod.mk.injEq] at h
        obtain ⟨h1, h2, h3⟩ := h
        exact ⟨0, d, rfl, h1, h3 ▸ hr, by omega⟩
      | some p =>
        obtain ⟨t', i', e'⟩ := p
        simp only [hrec] at h
        split at h
        · simp only [Option.some.injEq, Prod.mk.injEq] at h
          obtain ⟨h1, h2, h3⟩ := h
          exact ⟨0, d, rfl, h1, h3 ▸ hr, by omega⟩
        · simp only [Option.some.injEq, Prod.mk.injEq] at h
          obtain ⟨h1, h2, h3⟩ := h
          obtain ⟨k, d', hk, ht, he, hidx⟩ := ih (i + 1) t' i' e' hrec
          exact ⟨k + 1, d', by simpa using hk, h1 ▸ ht, h3 ▸ he, by omega⟩

theorem mem_fireTime_le_max {α : Type} (d : SimDeferred α) :
    ∀ ds : List (SimDeferred α), d ∈ ds → d.fireTime ≤ maxFireTime ds := by
  intro ds
  induction ds with
  | nil => intro h; simp at h
  | cons d' ds ih =>
    intro h
    simp only [maxFireTime, List.foldr]
    rcases List.mem_cons.mp h with h | h
    · subst h; omega
    · have := ih h
      simp only [maxFireTime] at this
      omega

theorem findFirstFailure_min {α : Type} :
    ∀ (ds : List (SimDeferred α)) (j : Nat) (d : SimDeferred α) (e : PyFailure),
    ds.get? j = some d → d.result = .error e →
    (∀ k d' e', ds.get? k = some d' → d'.result = .error e' → k ≠ j →
      d.fireTime < d'.fireTime) →
    ∀ i, findFirstFailure i ds = some (d.fireTime, i + j, e) := by
  intro ds
  induction ds with
  | nil => intro j d e hj; simp at hj
  | cons x tl ih =>
    intro j d e hj he hmin i
    match j with
    | 0 =>
      have hx : x = d := by simpa using hj
      subst hx
      simp only [findFirstFailure, he]
      cases hrec : findFirstFailure (i + 1) tl with
      | none => rfl
      | some p =>
        obtain ⟨t', i', e'⟩ := p
        obtain ⟨k, d', hk, ht, he', _⟩ := findFirstFailure_some_mem tl (i + 1) t' i' e' hrec
        have hlt : x.fireTime < t' := by
          have := hmin (k + 1) d' e' (by simpa using hk) he' (by omega)
          omega
        dsimp only
        rw [if_pos (by omega)]
        simp
    | j' + 1 =>
      have hj' : tl.get? j' = some d := by simpa using hj
      have hmin' : ∀ k d' e', tl.get? k = some d' → d'.result = .error e' → k ≠ j' →
          d.fireTime < d'.fireTime := by
        intro k d' e' hk he' hne
        exact hmin (k + 1) d' e' (by simpa using hk) he' (by omega)
      have hrec := ih j' d e hj' he hmin' (i + 1)
      simp only [findFirstFailure, hrec]
      have harith : i + 1 + j' = i + (j' + 1) := by omega
      cases hx : x.result with
      | ok v =>
        dsimp only
        rw [harith]
      | error e0 =>
        have hlt : d.fireTime < x.fireTime := by
          have := hmin 0 x e0 rfl hx (by omega)
          omega
        dsimp only
        rw [if_neg (by omega), harith]

theorem flatten_log_eq :
    ∀ ds : List (SimDeferred PyObj),
    ((ds.map (fun d =>
      (d.addErrback (GatherDeferredsAPI.log_and_return_failure true)).2)).flatten) =
    ds.filterMap errOf := by
  intro ds
  induction ds with
  | nil => rfl
  | cons d ds ih =>
    rw [List.map_cons, List.flatten_cons, List.filterMap_cons, ih]
    cases hr : d.result with
    | ok v =>
      have h1 : errOf d = Option.none := by simp [errOf, hr]
      have h2 : (d.addErrback (GatherDeferredsAPI.log_and_return_failure true)).2 = [] := by
        simp [SimDeferred.addErrback, GatherDeferredsAPI.log_and_return_failure, hr]
      simp only [h1, h2]
      simp
    | error e0 =>
      have h1 : errOf d = some e0 := by simp [errOf, hr]
      have h2 : (d.addErrback (GatherDeferredsAPI.log_and_return_failure true)).2 = [e0] := by
        simp [SimDeferred.addErrback, GatherDeferredsAPI.log_and_return_failure, hr]
      simp only [h1, h2]
      simp

theorem count_filterMap_errOf (e : PyFailure) :
    ∀ ds : List (SimDeferred PyObj),
    (ds.filterMap errOf).count e = ds.countP (fun d => errOf d == some e) := by
  intro ds
  induction ds with
  | nil => rfl
  | cons d ds ih =>
    cases hr : d.result with
    | ok v =>
      have h1 : errOf d = Option.none := by simp [errOf, hr]
      simp [List.filterMap_cons, List.countP_cons, h1, ih]
    | error e0 =>
      have h1 : errOf d = some e0 := by simp [errOf, hr]
      by_cases he : e0 = e
      · subst he
        simp [List.filterMap_cons, List.countP_cons, h1, ih, List.count_cons]
      · simp [List.filterMap_cons, List.countP_cons, h1, ih, List.count_cons, he]

theorem gatherResults_stepped (ds : List (SimDeferred PyObj)) :
    gatherResults (ds.map
      (fun d => (d.addErrback (GatherDeferredsAPI.log_and_return_failure true)).1)) =
    ⟨maxFireTime ds, .ok (okValues (ds.map
      (fun d => (d.addErrback (GatherDeferredsAPI.log_and_return_failure true)).1)))⟩ := by
  have hok : ∀ d' ∈ ds.map
      (fun d => (d.addErrback (GatherDeferredsAPI.log_and_return_failure true)).1),
      ∃ v, d'.result = .ok v := by
    intro d' hd'
    obtain ⟨d, _, hd⟩ := List.mem_map.mp hd'
    exact hd ▸ addErrback_fst_ok true d
  have hnone := findFirstFailure_none _ hok 0
  rw [gatherResults, hnone]
  rw [maxFireTime_map_of_fireTime_eq _ (addErrback_fst_fireTime true) ds]

theorem first_failure_fireTime_le (ds : List (SimDeferred PyObj)) :
    (gatherResults ds).fireTime ≤ maxFireTime ds := by
  rw [gatherResults]
  cases hff : findFirstFailure 0 ds with
  | none => simp
  | some p =>
    obtain ⟨t, i, e⟩ := p
    obtain ⟨k, d, hk, ht, _, _⟩ := findFirstFailure_some_mem ds 0 t i e hff
    simp only
    rw [← ht]
    exact mem_fireTime_le_max d ds (List.get?_mem hk)

theorem gather_fireTime (ds : List (SimDeferred PyObj)) :
    (gather_deferreds ds).1.fireTime = maxFireTime ds := by
  simp only [gather_deferreds, GatherDeferredsAPI.gather_deferreds, List.map_map,
    Function.comp_def]
  rw [gatherResults_stepped ds]
  rw [SimDeferred.addCallbackChainDeferred]
  have hle := first_failure_fireTime_le ds
  simp only
  omega

theorem gather_logs (ds : List (SimDeferred PyObj)) :
    (gather_deferreds ds).2 = ds.filterMap errOf := by
  simp only [gather_deferreds, GatherDeferredsAPI.gather_deferreds, List.map_map,
    Function.comp_def]
  exact flatten_log_eq ds

theorem okValues_of_all_ok : ∀ (ds : List (SimDeferred PyObj)) (vals : List PyObj),
    ds.map (fun d => d.result) = vals.map Except.ok → okValues ds = vals := by
  intro ds
  induction ds with
  | nil =>
    intro vals h
    cases vals with
    | nil => rfl
    | cons v vs => simp at h
  | cons d ds ih =>
    intro vals h
    cases vals with
    | nil => simp at h
    | cons v vs =>
      simp only [List.map_cons, List.cons.injEq] at h
      obtain ⟨h1, h2⟩ := h
      have h3 := ih vs h2
      simp only [okValues] at h3 ⊢
      rw [List.filterMap_cons]
      have h4 : d.result.toOption = some v := by rw [h1]; rfl
      simp only [h4, h3]

theorem gather_all_ok (ds : List (SimDeferred PyObj)) (vals : List PyObj)
    (h : ds.map (fun d => d.result) = vals.map Except.ok) :
    (gather_deferreds ds).1.result = .ok vals := by
  have hall : ∀ d ∈ ds, ∃ v, d.result = .ok v := by
    intro d hd
    have : d.result ∈ vals.map Except.ok := h ▸ List.mem_map_of_mem (fun d => d.result) hd
    obtain ⟨v, _, hv⟩ := List.mem_map.mp this
    exact ⟨v, hv.symm⟩
  have hnone := findFirstFailure_none ds hall 0
  simp only [gather_deferreds, GatherDeferredsAPI.gather_deferreds, List.map_map,
    Function.comp_def]
  rw [gatherResults_stepped ds, SimDeferred.addCallbackChainDeferred]
  simp only [gatherResults, hnone]
  exact congrArg Except.ok (okValues_of_all_ok ds vals h)

theorem gather_first_error (ds : List (SimDeferred PyObj)) (i : Nat)
    (d : SimDeferred PyObj) (e : PyFailure)
    (hj : ds.get? i = some d) (he : d.result = .error e)
    (hmin : ∀ k d' e', ds.get? k = some d' → d'.result = .error e' → k ≠ i →
      d.fireTime < d'.fireTime) :
    (gather_deferreds ds).1.result = .error (.firstError e i) := by
  have hff := findFirstFailure_min ds i d e hj he hmin 0
  rw [Nat.zero_add] at hff
  simp only [gather_deferreds, GatherDeferredsAPI.gather_deferreds, List.map_map,
    Function.comp_def]
  rw [gatherResults_stepped ds, SimDeferred.addCallbackChainDeferred]
  simp only [gatherResults, hff]

/-- Whether an event is a ClusterStatus push (`callRemote`). -/
def isPush : Event → Bool
  | .push .. => true
  | _ => false

/-- Whether an event is a configuration-store read (`get()`). -/
def isGetConfig : Event → Bool
  | .getConfig _ => true
  | _ => false

/-- Whether an event is an aggregated-state computation (`as_deployment()`). -/
def isAsDeployment : Event → Bool
  | .asDeployment _ => true
  | _ => false

/-- The ClusterStatus pushes of a trace, in order. -/
def pushesOf (tr : List Event) : List Event :=
  tr.filter isPush

theorem filter_push_map_self (p : Event → Bool) (conns : List Session) (cfg st : PyObj)
    (hp : ∀ s, p (Event.push s cfg st) = true) :
    (conns.map (fun s => Event.push s cfg st)).filter p =
      conns.map (fun s => Event.push s cfg st) := by
  rw [List.filter_eq_self]
  intro a ha
  obtain ⟨s, _, hs⟩ := List.mem_map.mp ha
  rw [← hs]
  exact hp s

theorem filter_push_map_nil (p : Event → Bool) (conns : List Session) (cfg st : PyObj)
    (hp : ∀ s, p (Event.push s cfg st) = false) :
    (conns.map (fun s => Event.push s cfg st)).filter p = [] := by
  rw [List.filter_eq_nil_iff]
  intro a ha
  obtain ⟨s, _, hs⟩ := List.mem_map.mp ha
  rw [← hs, hp s]
  simp

theorem send_filter_getConfig (svc : ControlAMPService) (conns : List Session) :
    (svc.send_state_to_connections conns).filter isGetConfig =
      [Event.getConfig svc.configuration_service.get] := by
  simp only [ControlAMPService.send_state_to_connections, List.filter, isGetConfig]
  rw [filter_push_map_nil isGetConfig conns _ _ (fun s => rfl)]

theorem send_filter_asDeployment (svc : ControlAMPService) (conns : List Session) :
    (svc.send_state_to_connections conns).filter isAsDeployment =
      [Event.asDeployment svc.cluster_state.as_deployment] := by
  simp only [ControlAMPService.send_state_to_connections, List.filter, isAsDeployment]
  rw [filter_push_map_nil isAsDeployment conns _ _ (fun s => rfl)]

theorem send_pushes (svc : ControlAMPService) (conns : List Session) :
    pushesOf (svc.send_state_to_connections conns) =
      conns.map (fun s => Event.push s svc.configuration_service.get
        svc.cluster_state.as_deployment) := by
  simp only [pushesOf, ControlAMPService.send_state_to_connections, List.filter, isPush]
  rw [filter_push_map_self isPush conns _ _ (fun s => rfl)]

theorem send_shape (svc : ControlAMPService) (conns : List Session) :
    svc.send_state_to_connections conns =
      Event.getConfig svc.configuration_service.get ::
      Event.asDeployment svc.cluster_state.as_deployment ::
      conns.map (fun s => Event.push s svc.configuration_service.get
        svc.cluster_state.as_deployment) := rfl

theorem mem_setAdd (s : List Session) (c : Session) : c ∈ setAdd s c := by
  rw [setAdd]
  split
  · assumption
  · simp

theorem processDisconnects_no_errors :
    ∀ (l : List Session) (svc : ControlAMPService), l.Nodup →
    (∀ c ∈ l, c ∈ svc.connections) → (processDisconnects svc l).2 = [] := by
  intro l
  induction l with
  | nil => intro svc _ _; rfl
  | cons c cs ih =>
    intro svc hnd hmem
    have hc : c ∈ svc.connections := hmem c (List.mem_cons_self c cs)
    simp only [processDisconnects, ControlAMPService.disconnected, if_pos hc]
    have hmem' : ∀ c' ∈ cs, c' ∈ svc.connections.erase c := by
      intro c' hc'
      have hne : c' ≠ c := by
        intro hcc
        subst hcc
        exact (List.nodup_cons.mp hnd).1 hc'
      exact (List.mem_erase_of_ne hne).mpr (hmem c' (List.mem_cons_of_mem c hc'))
    have := ih { svc with connections := svc.connections.erase c }
      (List.nodup_cons.mp hnd).2 hmem'
    simp [this]

theorem configuration_changed_eq (svc : ControlAMPService) :
    svc.configuration_changed = svc.send_state_to_connections svc.connections := rfl

theorem node_changed_eq (svc : ControlAMPService) (n : PyObj) :
    svc.node_changed n =
      ({ svc with cluster_state := svc.cluster_state.update_node_state n },
        Event.updateNodeState n ::
          ControlAMPService.send_state_to_connections
            { svc with cluster_state := svc.cluster_state.update_node_state n }
            svc.connections) := rfl

theorem connected_eq (svc : ControlAMPService) (c : Session) :
    svc.connected c =
      ({ svc with connections := setAdd svc.connections c },
        ControlAMPService.send_state_to_connections
          { svc with connections := setAdd svc.connections c } [c]) := rfl

/-- C1: every broadcast episode — one triggered by a configuration change,
one by a received node-state update, one by a new connection — reads the
configuration exactly once via the configuration store's `get()` and
computes the aggregated state exactly once via `as_deployment()`; both
reads come before every ClusterStatus push of the episode, and every push
of the episode carries that identical `(configuration, state)` pair, one
push per recipient in the episode's recipient collection.  So no recipient
can see a pair mixing two different reads. -/
theorem C1_broadcast_consistent_snapshot :
    ∀ (svc : ControlAMPService) (n : PyObj) (c : Session),
    (svc.configuration_changed).filter isGetConfig =
      [Event.getConfig svc.configuration_service.get]
    ∧ (svc.configuration_changed).filter isAsDeployment =
      [Event.asDeployment svc.cluster_state.as_deployment]
    ∧ pushesOf svc.configuration_changed = svc.connections.map
      (fun s => Event.push s svc.configuration_service.get svc.cluster_state.as_deployment)
    ∧ svc.configuration_changed =
      Event.getConfig svc.configuration_service.get ::
      Event.asDeployment svc.cluster_state.as_deployment ::
      svc.connections.map (fun s => Event.push s svc.configuration_service.get
        svc.cluster_state.as_deployment)
    ∧ ((svc.node_changed n).2).filter isGetConfig =
      [Event.getConfig svc.configuration_service.get]
    ∧ ((svc.node_changed n).2).filter isAsDeployment =
      [Event.asDeployment ((svc.cluster_state.update_node_state n).as_deployment)]
    ∧ pushesOf (svc.node_changed n).2 = svc.connections.map
      (fun s => Event.push s svc.configuration_service.get
        ((svc.cluster_state.update_node_state n).as_deployment))
    ∧ (svc.node_changed n).2 =
      Event.updateNodeState n ::
      Event.getConfig svc.configuration_service.get ::
      Event.asDeployment ((svc.cluster_state.update_node_state n).as_deployment) ::
      svc.connections.map (fun s => Event.push s svc.configuration_service.get
        ((svc.cluster_state.update_node_state n).as_deployment))
    ∧ ((svc.connected c).2).filter isGetConfig =
      [Event.getConfig svc.configuration_service.get]
    ∧ ((svc.connected c).2).filter isAsDeployment =
      [Event.asDeployment svc.cluster_state.as_deployment]
    ∧ pushesOf (svc.connected c).2 =
      [Event.push c svc.configuration_service.get svc.cluster_state.as_deployment] := by
  intro svc n c
  refine ⟨send_filter_getConfig svc svc.connections,
    send_filter_asDeployment svc svc.connections,
    send_pushes svc svc.connections, rfl, ?_, ?_, ?_, rfl, ?_, ?_, ?_⟩
  · rw [node_changed_eq]
    simp only [List.filter, isGetConfig]
    rw [filter_push_map_nil isGetConfig svc.connections _ _ (fun s => rfl)]
  · rw [node_changed_eq]
    simp only [List.filter, isAsDeployment]
    rw [filter_push_map_nil isAsDeployment svc.connections _ _ (fun s => rfl)]
  · rw [node_changed_eq]
    simp only [pushesOf, List.filter, isPush]
    rw [filter_push_map_self isPush svc.connections _ _ (fun s => rfl)]
  · rw [connected_eq]
    exact send_filter_getConfig _ [c]
  · rw [connected_eq]
    exact send_filter_asDeployment _ [c]
  · rw [connected_eq]
    exact send_pushes _ [c]

/-- C2 counterexample: the claim says every broadcast over the live
connection set iterates a snapshot copy of the set rather than the live set
itself; in the source, both the configuration-change callback
(`self._send_state_to_connections(self.connections)`, line 214) and
`node_changed` (line 271) pass the live set object itself — no copy is
taken. -/
theorem C2_counterexample :
    node_changed_recipients.isSnapshotCopy = false ∧
    configuration_changed_recipients.isSnapshotCopy = false :=
  ⟨rfl, rfl⟩

/-- C2 amended: broadcasts triggered by a configuration change or by a
node-state update pass the live connection set object itself (`self.connections`)
to the send loop — no snapshot copy is taken; only the connect-time send
builds a fresh single-element list.  Under the reactor's run-to-completion
execution of the loop no disconnect interleaves with it, and the loop
attempts delivery to every session in the live set of the episode. -/
theorem C2_broadcast_iterates_live_set :
    ∀ (svc : ControlAMPService) (n : PyObj) (c : Session),
    node_changed_recipients = RecipientsArg.live
    ∧ configuration_changed_recipients = RecipientsArg.live
    ∧ connected_recipients c = RecipientsArg.fresh [c]
    ∧ node_changed_recipients.resolve svc.connections = svc.connections
    ∧ pushesOf (svc.node_changed n).2 = svc.connections.map
      (fun s => Event.push s svc.configuration_service.get
        ((svc.cluster_state.update_node_state n).as_deployment))
    ∧ pushesOf svc.configuration_changed = svc.connections.map
      (fun s => Event.push s svc.configuration_service.get
        svc.cluster_state.as_deployment) := by
  intro svc n c
  refine ⟨rfl, rfl, rfl, rfl, ?_, send_pushes svc svc.connections⟩
  rw [node_changed_eq]
  simp only [pushesOf, List.filter, isPush]
  rw [filter_push_map_self isPush svc.connections _ _ (fun s => rfl)]

/-- C3: on a received NodeState push, the service first forwards the value
to the aggregation store's `update_node_state` and only then broadcasts to
the live connection set; the state sent in that broadcast is
`as_deployment()` of the store after the merge, and the merged store
contains the received value's contribution. -/
theorem C3_node_state_merged_before_broadcast :
    ∀ (svc : ControlAMPService) (n : PyObj),
    (svc.node_changed n).1.cluster_state = svc.cluster_state.update_node_state n
    ∧ (svc.node_changed n).1.cluster_state.node_states =
      svc.cluster_state.node_states ++ [n]
    ∧ n ∈ (svc.node_changed n).1.cluster_state.node_states
    ∧ (svc.node_changed n).1.connections = svc.connections
    ∧ (svc.node_changed n).2 =
      Event.updateNodeState n ::
      Event.getConfig svc.configuration_service.get ::
      Event.asDeployment ((svc.cluster_state.update_node_state n).as_deployment) ::
      svc.connections.map (fun s => Event.push s svc.configuration_service.get
        ((svc.cluster_state.update_node_state n).as_deployment))
    ∧ (svc.cluster_state.update_node_state n).as_deployment =
      PyObj.list (svc.cluster_state.node_states ++ [n]) := by
  intro svc n
  refine ⟨rfl, rfl, ?_, rfl, rfl, rfl⟩
  rw [node_changed_eq]
  simp [ClusterStateService.update_node_state]

/-- C4: `connected` adds the session to the live set and then issues
exactly one ClusterStatus push, to that session only, carrying the
configuration and the aggregated state as read at connect time; no push
goes to any already-connected session. -/
theorem C4_connected_single_push :
    ∀ (svc : ControlAMPService) (c : Session),
    (svc.connected c).1.connections = setAdd svc.connections c
    ∧ c ∈ (svc.connected c).1.connections
    ∧ pushesOf (svc.connected c).2 =
      [Event.push c svc.configuration_service.get svc.cluster_state.as_deployment]
    ∧ (∀ s C S, Event.push s C S ∈ (svc.connected c).2 →
        s = c ∧ C = svc.configuration_service.get ∧ S = svc.cluster_state.as_deployment) := by
  intro svc c
  refine ⟨rfl, mem_setAdd svc.connections c, ?_, ?_⟩
  · rw [connected_eq]
    exact send_pushes _ [c]
  · intro s C S hmem
    rw [connected_eq] at hmem
    simp only [ControlAMPService.send_state_to_connections, List.map_cons, List.map_nil,
      List.mem_cons, List.mem_singleton] at hmem
    rcases hmem with h | h | h | h
    · exact absurd h (by simp)
    · exact absurd h (by simp)
    · obtain ⟨h1, h2, h3⟩ := Event.push.injEq .. ▸ h
      exact ⟨h1, h2, h3⟩
    · exact absurd h (by simp)

/-- C4 witness: with live set `[3]` and new session `7`, the single push of
the connect-time episode goes to session `7` and carries the configuration
and state read at connect time. -/
theorem C4_witness :
    (7 : Session) = 7 ∧
    PyObj.str "cfg" =
      (⟨[3], ⟨[PyObj.none]⟩, ⟨PyObj.str "cfg"⟩⟩ : ControlAMPService).configuration_service.get ∧
    PyObj.list [PyObj.none] =
      (⟨[3], ⟨[PyObj.none]⟩, ⟨PyObj.str "cfg"⟩⟩ : ControlAMPService).cluster_state.as_deployment :=
  (C4_connected_single_push ⟨[3], ⟨[PyObj.none]⟩, ⟨PyObj.str "cfg"⟩⟩ 7).2.2.2
    7 (PyObj.str "cfg") (PyObj.list [PyObj.none])
    (List.Mem.tail _ (List.Mem.tail _ (List.Mem.head _)))

/-- C5: decoding the encoding of any structured value yields the value
back, for both codec classes.  The deployment codec is the spec-modelled
`_persistence` pair; the node-state codec is the modelled pickle pair. -/
theorem C5_codec_roundtrip :
    ∀ v : PyObj,
    NodeStateArgument.fromString (NodeStateArgument.toString v) = Except.ok v ∧
    DeploymentArgument.fromString (DeploymentArgument.toString v) = Except.ok v :=
  fun v => ⟨loads_dumps v, loads_dumps v⟩

/-- C6 counterexample: decoding the invalid byte string `[99]` (an unknown
tag) fails with the bare lower-level deserializer error — there is no
`DecodeError` wrapper carrying a record size and offset anywhere in the
codec classes, which return the deserializer's result unchanged. -/
theorem C6_counterexample :
    NodeStateArgument.fromString [99] = Except.error (PickleError.badTag 99) ∧
    DeploymentArgument.fromString [99] = Except.error (PickleError.badTag 99) ∧
    NodeStateArgument.fromString [] = Except.error PickleError.truncated :=
  ⟨rfl, rfl, rfl⟩

/-- C6 amended: for every byte sequence that does not begin with a valid
encoding of a structured value, each codec's decode fails, and the failure
it raises is the lower-level deserialization error unchanged — no
DecodeError wrapper, no record-size/offset context; handling of the raised
error (failing the one command without crashing the loop) is the AMP
library's, not this code's. -/
theorem C6_decode_failure_bare_error :
    ∀ b : List Nat,
    (∀ v, NodeStateArgument.fromString b = Except.ok v →
      ∃ rest, b = NodeStateArgument.toString v ++ rest)
    ∧ (∀ e, loads b = Except.error e →
        NodeStateArgument.fromString b = Except.error e ∧
        DeploymentArgument.fromString b = Except.error e)
    ∧ (∀ v, DeploymentArgument.fromString b = Except.ok v →
      ∃ rest, b = DeploymentArgument.toString v ++ rest) :=
  fun b => ⟨fun v h => loads_sound b v h, fun _ h => ⟨h, h⟩,
    fun v h => loads_sound b v h⟩

/-- C6 witness: at the concrete invalid input `[99]` the lower-level error
is `badTag 99` and both codecs surface exactly it. -/
theorem C6_witness :
    NodeStateArgument.fromString [99] = Except.error (PickleError.badTag 99) ∧
    DeploymentArgument.fromString [99] = Except.error (PickleError.badTag 99) :=
  (C6_decode_failure_bare_error [99]).2.1 (PickleError.badTag 99) rfl

/-- C7 counterexample: for the operations `[ok(1), fail(E1), ok(2),
fail(E2)]` completing in that order, the final result is a failure wrapping
E1 as twisted's `FirstError` (with the index of the failed deferred), not a
failure equal to E1 itself as the claim states; both E1 and E2 are logged
once. -/
theorem C7_counterexample :
    (gather_deferreds [⟨0, .ok (.int 1)⟩, ⟨1, .error (.failure "E1")⟩,
      ⟨2, .ok (.int 2)⟩, ⟨3, .error (.failure "E2")⟩]).1.result =
      Except.error (PyFailure.firstError (.failure "E1") 1) ∧
    @Except.error PyFailure (List PyObj)
      (PyFailure.firstError (.failure "E1") 1) ≠
      Except.error (PyFailure.failure "E1") ∧
    (gather_deferreds [⟨0, .ok (.int 1)⟩, ⟨1, .error (.failure "E1")⟩,
      ⟨2, .ok (.int 2)⟩, ⟨3, .error (.failure "E2")⟩]).2 =
      [PyFailure.failure "E1", PyFailure.failure "E2"] := by
  refine ⟨rfl, ?_, rfl⟩
  intro h
  have := Except.error.inj h
  simp at this

/-- C7 amended: for every list of independent deferred operations,
`gather_deferreds` fires only once all of them have fired, regardless of
individual failures; every observed failure is logged exactly once (the
logs are exactly the failures of the inputs, in order); if all succeed the
result is the combined list of the results in input order; and if any fail
the result is a failure wrapping — as twisted's `FirstError`, with its
index — whichever failure resolved first by completion order. -/
theorem C7_gather_waits_logs_first_error :
    ∀ ds : List (SimDeferred PyObj),
    (gather_deferreds ds).1.fireTime = maxFireTime ds
    ∧ (gather_deferreds ds).2 = ds.filterMap errOf
    ∧ (∀ e, ((gather_deferreds ds).2).count e =
        ds.countP (fun d => errOf d == some e))
    ∧ (∀ vals, ds.map (fun d => d.result) = vals.map Except.ok →
        (gather_deferreds ds).1.result = .ok vals)
    ∧ (∀ i d e, ds.get? i = some d → d.result = .error e →
        (∀ k d' e', ds.get? k = some d' → d'.result = .error e' → k ≠ i →
          d.fireTime < d'.fireTime) →
        (gather_deferreds ds).1.result = .error (.firstError e i)) := by
  intro ds
  refine ⟨gather_fireTime ds, gather_logs ds, ?_, gather_all_ok ds,
    gather_first_error ds⟩
  intro e
  rw [gather_logs ds]
  exact count_filterMap_errOf e ds

/-- C7 witness: at the concrete input `[ok(1), fail(E1), ok(2), fail(E2)]`
with fire times 0..3, the strictly-earliest-failure hypothesis holds for
index 1, the gathered deferred fires at time 3 (after every input), and the
result is the `FirstError`-wrapped E1. -/
theorem C7_witness :
    (gather_deferreds [⟨0, .ok (.int 1)⟩, ⟨1, .error (.failure "E1")⟩,
      ⟨2, .ok (.int 2)⟩, ⟨3, .error (.failure "E2")⟩]).1.fireTime =
      maxFireTime ([⟨0, .ok (.int 1)⟩, ⟨1, .error (.failure "E1")⟩,
        ⟨2, .ok (.int 2)⟩, ⟨3, .error (.failure "E2")⟩] : List (SimDeferred PyObj)) ∧
    (gather_deferreds [⟨0, .ok (.int 1)⟩, ⟨1, .error (.failure "E1")⟩,
      ⟨2, .ok (.int 2)⟩, ⟨3, .error (.failure "E2")⟩]).1.result =
      Except.error (PyFailure.firstError (.failure "E1") 1) := by
  refine ⟨(C7_gather_waits_logs_first_error ([⟨0, .ok (.int 1)⟩,
    ⟨1, .error (.failure "E1")⟩, ⟨2, .ok (.int 2)⟩,
    ⟨3, .error (.failure "E2")⟩] : List (SimDeferred PyObj))).1, ?_⟩
  refine (C7_gather_waits_logs_first_error ([⟨0, .ok (.int 1)⟩,
    ⟨1, .error (.failure "E1")⟩, ⟨2, .ok (.int 2)⟩,
    ⟨3, .error (.failure "E2")⟩] : List (SimDeferred PyObj))).2.2.2.2 1
    ⟨1, .error (.failure "E1")⟩ (.failure "E1") rfl rfl ?_
  intro k d' e' hk he' hne
  match k with
  | 0 =>
    obtain hd' : (⟨0, .ok (.int 1)⟩ : SimDeferred PyObj) = d' := Option.some.inj hk
    rw [← hd'] at he'
    simp at he'
  | 1 => exact absurd rfl hne
  | 2 =>
    obtain hd' : (⟨2, .ok (.int 2)⟩ : SimDeferred PyObj) = d' := Option.some.inj hk
    rw [← hd'] at he'
    simp at he'
  | 3 =>
    obtain hd' : (⟨3, .error (.failure "E2")⟩ : SimDeferred PyObj) = d' := Option.some.inj hk
    rw [← hd']
    simp
  | n + 4 => simp [List.get?] at hk

theorem kwLookup_kwErase_none (args : Kwargs) (k : String) :
    kwLookup (kwErase args k) k = Option.none := by
  rw [kwLookup, kwErase]
  cases hfind : (args.filter fun kv => kv.1 != k).find? (fun kv => kv.1 == k) with
  | none => rfl
  | some kv =>
    have h1 := List.find?_some hfind
    have h2 := (List.mem_filter.mp (List.mem_of_find?_eq_some hfind)).2
    rw [beq_iff_eq] at h1
    rw [bne_iff_ne] at h2
    exact absurd h1 h2

/-- C8: for every handler wrapped by `with_eliot_context` — in particular
the NodeState responder `ControlServiceLocator.node_changed` and the
ClusterStatus responder `_AgentLocator.cluster_updated` — the
`eliot_context` argument is stripped before the wrapped function runs (the
remaining keyword arguments no longer contain it), the body's events are
bracketed by the resumed trace scope, and the scope-closing event is
emitted on every exit path: the result — including a raised exception — is
passed through unchanged after the scope closes. -/
theorem C8_eliot_context_strip_and_scope :
    ∀ (α : Type) (f : Kwargs → List Event × Except PyErr α) (args : Kwargs)
      (ctx : String) (svc : ControlAMPService),
    (kwLookup args "eliot_context" = some (PyObj.str ctx) →
      with_eliot_context f args =
        (Event.beginTask ctx :: (f (kwErase args "eliot_context")).1 ++
          [Event.finishTask ctx],
         (f (kwErase args "eliot_context")).2))
    ∧ (kwLookup args "eliot_context" = some (PyObj.str ctx) →
        (with_eliot_context f args).1.head? = some (Event.beginTask ctx) ∧
        (with_eliot_context f args).1.getLast? = some (Event.finishTask ctx))
    ∧ kwLookup (kwErase args "eliot_context") "eliot_context" = Option.none
    ∧ ControlServiceLocator.node_changed svc args =
        with_eliot_context (ControlServiceLocator.node_changed_body svc) args
    ∧ AgentLocator.cluster_updated args =
        with_eliot_context AgentLocator.cluster_updated_body args := by
  intro α f args ctx svc
  have heq : kwLookup args "eliot_context" = some (PyObj.str ctx) →
      with_eliot_context f args =
        (Event.beginTask ctx :: (f (kwErase args "eliot_context")).1 ++
          [Event.finishTask ctx],
         (f (kwErase args "eliot_context")).2) := by
    intro h
    rw [with_eliot_context, h]
  refine ⟨heq, ?_, kwLookup_kwErase_none args "eliot_context", rfl, rfl⟩
  intro h
  rw [heq h]
  constructor
  · rfl
  · rw [show Event.beginTask ctx :: (f (kwErase args "eliot_context")).1 ++
        [Event.finishTask ctx] =
        (Event.beginTask ctx :: (f (kwErase args "eliot_context")).1) ++
        [Event.finishTask ctx] from rfl]
    exact List.getLast?_concat _

/-- C8 witness: a wrapped handler that raises still has its scope opened
and closed around it, the exception passing through, and the kwargs it
receives no longer contain the trace identifier. -/
theorem C8_witness :
    with_eliot_context (fun _ => ([], Except.error (α := Kwargs) PyErr.typeError))
      [("eliot_context", PyObj.str "task1")] =
      ([Event.beginTask "task1", Event.finishTask "task1"],
        Except.error PyErr.typeError) ∧
    kwLookup (kwErase [("eliot_context", PyObj.str "task1")] "eliot_context")
      "eliot_context" = Option.none := by
  have h := C8_eliot_context_strip_and_scope Kwargs
    (fun _ => ([], Except.error PyErr.typeError))
    [("eliot_context", PyObj.str "task1")] "task1" ⟨[], ⟨[]⟩, ⟨PyObj.none⟩⟩
  exact ⟨h.1 rfl, h.2.2.1⟩

/-- C9: stopping the service stops the listening endpoint first and then
force-closes every session in the live connection set; afterwards the
pending `connectionLost` notifications — sessions disconnecting while the
service shuts down — are each processed by `disconnected` without raising,
in any duplicate-free order. -/
theorem C9_stop_closes_endpoint_and_sessions :
    ∀ svc : ControlAMPService,
    svc.stopService = Event.stopEndpoint :: svc.connections.map Event.loseConnection
    ∧ (∀ c ∈ svc.connections, Event.loseConnection c ∈ svc.stopService)
    ∧ (∀ l : List Session, l.Nodup → (∀ c ∈ l, c ∈ svc.connections) →
        (processDisconnects svc l).2 = []) := by
  intro svc
  refine ⟨rfl, ?_, fun l => processDisconnects_no_errors l svc⟩
  intro c hc
  rw [ControlAMPService.stopService]
  exact List.mem_cons_of_mem _ (List.mem_map_of_mem Event.loseConnection hc)

/-- C9 witness: with live sessions `[5, 7]`, stopping emits the endpoint
stop followed by a forced close of each session, and processing the two
disconnects afterwards (in the opposite order) raises nothing. -/
theorem C9_witness :
    (⟨[5, 7], ⟨[]⟩, ⟨PyObj.none⟩⟩ : ControlAMPService).stopService =
      [Event.stopEndpoint, Event.loseConnection 5, Event.loseConnection 7] ∧
    (processDisconnects (⟨[5, 7], ⟨[]⟩, ⟨PyObj.none⟩⟩ : ControlAMPService) [7, 5]).2 = [] := by
  have h := C9_stop_closes_endpoint_and_sessions ⟨[5, 7], ⟨[]⟩, ⟨PyObj.none⟩⟩
  exact ⟨h.1, h.2.2 [7, 5] (by decide) (by decide)⟩

/-- C10: calling `disconnected` with a session that is not in the live
connection set raises `KeyError` (the removal is `set.remove`, not a
discard) and leaves the set unchanged; hence a duplicate disconnect
notification for the same session is an error at this interface, not a
no-op. -/
theorem C10_disconnected_unknown_raises_keyerror :
    ∀ (svc : ControlAMPService) (c : Session),
    (c ∉ svc.connections → svc.disconnected c = (svc, some PyErr.keyError))
    ∧ (svc.connections.Nodup → c ∈ svc.connections →
        ((svc.disconnected c).1.disconnected c).2 = some PyErr.keyError) := by
  intro svc c
  constructor
  · intro hc
    rw [ControlAMPService.disconnected, if_neg hc]
  · intro hnd hc
    have hnotmem : c ∉ svc.connections.erase c := by
      intro hmem
      exact absurd rfl ((List.Nodup.mem_erase_iff hnd).mp hmem).1
    have h1 : svc.disconnected c =
        ({ svc with connections := svc.connections.erase c }, Option.none) := by
      rw [ControlAMPService.disconnected, if_pos hc]
    rw [h1]
    simp only [ControlAMPService.disconnected]
    rw [if_neg hnotmem]

/-- C10 witness: with live set `[1]`, disconnecting the unknown session `2`
raises `KeyError` and leaves the state unchanged, and a second disconnect
of session `1` raises `KeyError` as well. -/
theorem C10_witness :
    (⟨[1], ⟨[]⟩, ⟨PyObj.none⟩⟩ : ControlAMPService).disconnected 2 =
      ((⟨[1], ⟨[]⟩, ⟨PyObj.none⟩⟩ : ControlAMPService), some PyErr.keyError) ∧
    (((⟨[1], ⟨[]⟩, ⟨PyObj.none⟩⟩ : ControlAMPService).disconnected 1).1.disconnected 1).2 =
      some PyErr.keyError := by
  have h := C10_disconnected_unknown_raises_keyerror ⟨[1], ⟨[]⟩, ⟨PyObj.none⟩⟩
  exact ⟨(h 2).1 (by decide), (h 1).2 (by decide) (by decide)⟩
